import Mathlib

/-!
Shallow embedding of `src/dhcp_server.py` (class `LeaseManager` and class
`DHCPServer`) from the `network_service` repository, together with proofs
about the lease-allocation state machine and the DHCP wire handling.

Modelling conventions, justified against the source:

* IPv4 addresses. The Python code stores addresses as dotted-quad strings
  produced by `str(IPv4Address(ip_int))` (offer path, line 41) or by
  `socket.inet_ntoa` of a 4-byte option value (request path, line 130), and
  only ever compares them for equality / set membership.  Both renderings
  are injective encodings of the integers `0 ≤ n < 2^32`, and they agree on
  common inputs, so addresses are modelled as `Nat`: string equality in the
  source is equivalent to `Nat` equality here.

* Time. `time.time()` returns a real timestamp that is sampled afresh at
  each use inside one call; the samples within a single call differ by
  microseconds and every comparison in the source is against offsets of 60
  or 3600 seconds, so each operation receives one explicit `now : Int`.

* Python dicts (`self.leases`, `self.offered`, the parsed `options` dict)
  are modelled as association lists with dict semantics: `updateAssoc`
  replaces the value of an existing key in place and appends a fresh key,
  `eraseAssoc` removes a key, `lookupAssoc` finds a key's value.

* Bytes objects are `List Nat` (each element `< 256` in any real packet).
  Python slices clamp at the end of the buffer (`data[i:j]` never fails),
  while plain indexing `data[i]` raises `IndexError` when `i` is out of
  range; fallible code is modelled with `Except Unit`.
-/

/-- A value of the per-MAC dictionaries of `LeaseManager`:
`{'ip': ..., 'expiry': ...}` (dhcp_server.py lines 16-17, 43, 48). -/
structure Entry where
  ip : Nat
  expiry : Int
  deriving DecidableEq, Repr

/-- Dict lookup `d.get(k)` / `k in d` + `d[k]`. -/
def lookupAssoc {κ α : Type} [DecidableEq κ] : List (κ × α) → κ → Option α
  | [], _ => none
  | p :: rest, k => if p.1 = k then some p.2 else lookupAssoc rest k

/-- Dict assignment `d[k] = v`: replaces the value of an existing key in
place, appends a fresh key. -/
def updateAssoc {κ α : Type} [DecidableEq κ] : List (κ × α) → κ → α → List (κ × α)
  | [], k, v => [(k, v)]
  | p :: rest, k, v => if p.1 = k then (k, v) :: rest else p :: updateAssoc rest k v

/-- Dict deletion `del d[k]`. -/
def eraseAssoc {κ α : Type} [DecidableEq κ] (l : List (κ × α)) (k : κ) : List (κ × α) :=
  l.filter (fun p => p.1 ≠ k)

/-- The mutable state of a `LeaseManager` (dhcp_server.py lines 10-17):
the configured inclusive range `[rangeStart, rangeEnd]` (as integers of the
`IPv4Address` bounds), the configured `lease_time`, and the two dicts
`leases : MAC -> {ip, expiry}` and `offered : MAC -> {ip, expiry}`.
The `subnet` field is only read by the (unreachable, see `sendReplyBytes`)
reply construction and is omitted. -/
structure LeaseState where
  rangeStart : Nat
  rangeEnd : Nat
  leaseTime : Int
  leases : List (String × Entry)
  offered : List (String × Entry)
  deriving DecidableEq, Repr

/-- `LeaseManager.__init__`: both dicts start empty (lines 16-17). -/
def initState (lo hi : Nat) (lt : Int) : LeaseState :=
  { rangeStart := lo, rangeEnd := hi, leaseTime := lt, leases := [], offered := [] }

/-- `LeaseManager.get_lease` (lines 19-29): returns the bound ip if its
expiry is strictly in the future; an expired entry is deleted (lazy expiry)
and `None` is returned.  Returns the possibly-mutated state together with
the result. -/
def getLease (s : LeaseState) (mac : String) (now : Int) : LeaseState × Option Nat :=
  match lookupAssoc s.leases mac with
  | some e =>
      if now < e.expiry then (s, some e.ip)
      else ({ s with leases := eraseAssoc s.leases mac }, none)
  | none => (s, none)

/-- The `used_ips` set of `LeaseManager.offer_ip` (lines 37-38): every
bound address regardless of expiry, plus every offered address (the
caller's own included) whose offer has not expired. -/
def usedIps (s : LeaseState) (now : Int) : List Nat :=
  s.leases.map (fun p => p.2.ip) ++
    ((s.offered.filter (fun p => now < p.2.expiry)).map (fun p => p.2.ip))

/-- `LeaseManager.offer_ip` (lines 31-45): return the unexpired bound
address if any (via `get_lease`, which may delete an expired binding);
otherwise scan `range(int(range_start), int(range_end) + 1)` in ascending
order for the first address not in `used_ips`, record it as this MAC's
offer with expiry `now + 60`, and return it; if none is free return `None`
without touching the state. -/
def offerIp (s : LeaseState) (mac : String) (now : Int) : LeaseState × Option Nat :=
  let r := getLease s mac now
  match r.2 with
  | some ip => (r.1, some ip)
  | none =>
      let s1 := r.1
      let used := usedIps s1 now
      match (List.range' s1.rangeStart (s1.rangeEnd + 1 - s1.rangeStart)).find?
          (fun ip => !(used.contains ip)) with
      | some ip =>
          ({ s1 with offered := updateAssoc s1.offered mac ⟨ip, now + 60⟩ }, some ip)
      | none => (s1, none)

/-- `LeaseManager.commit_lease` (lines 47-51): unconditionally overwrite
the binding `mac -> (ip, now + lease_time)` and delete any pending offer
for that MAC. -/
def commitLease (s : LeaseState) (mac : String) (ip : Nat) (now : Int) : LeaseState :=
  { s with
    leases := updateAssoc s.leases mac ⟨ip, now + s.leaseTime⟩,
    offered := eraseAssoc s.offered mac }

/-! ## Wire handling (`DHCPServer.handle_packet` and `DHCPServer.send_reply`) -/

/-- Big-endian integer value of a byte string (the `!` formats of `struct`
and `socket.inet_ntoa` both read network byte order). -/
def beNat (bytes : List Nat) : Nat :=
  bytes.foldl (fun a b => a * 256 + b) 0

/-- The DHCP magic cookie `b'\x63\x82\x53\x63'` (line 96). -/
def MAGIC : List Nat := [0x63, 0x82, 0x53, 0x63]

/-- The fixed BOOTP fields unpacked at line 93. -/
structure BootpHeader where
  op : Nat
  htype : Nat
  hlen : Nat
  hops : Nat
  xid : Nat
  secs : Nat
  flags : Nat
  ciaddr : Nat
  yiaddr : Nat
  siaddr : Nat
  giaddr : Nat
  chaddr : List Nat
  deriving DecidableEq, Repr

/-- `struct.calcsize('!BBBBIHHIIII16s')`: four `B` (1 byte each), one `I`
(4), two `H` (2 each), four more `I` (4 each), one `16s` (16) — 44 bytes
in total under `!` (network order, no padding). -/
def unpackHeaderCalcSize : Nat := 44

/-- `struct.unpack('!BBBBIHHIIII16s', b)`: `struct.unpack` raises
`struct.error` unless the buffer length equals the format's `calcsize`
exactly; otherwise it yields the twelve field values.  Line 93 of the
source applies this format to `data[:28]`, a 28-byte slice, so there the
call always raises. -/
def structUnpackHeader (b : List Nat) : Except Unit BootpHeader :=
  if b.length = unpackHeaderCalcSize then
    .ok { op := b.getD 0 0, htype := b.getD 1 0, hlen := b.getD 2 0, hops := b.getD 3 0,
          xid := beNat ((b.drop 4).take 4),
          secs := beNat ((b.drop 8).take 2), flags := beNat ((b.drop 10).take 2),
          ciaddr := beNat ((b.drop 12).take 4), yiaddr := beNat ((b.drop 16).take 4),
          siaddr := beNat ((b.drop 20).take 4), giaddr := beNat ((b.drop 24).take 4),
          chaddr := (b.drop 28).take 16 }
  else .error ()

/-- The option-parsing loop of `handle_packet` (lines 100-111), phrased on
the byte suffix starting at index 240 (each iteration looks only at
`data[idx:]`).  Code 255 ends parsing, code 0 is skipped, any other code
reads a length byte — raising `IndexError` (`.error ()`) when the buffer
ends right after the code, exactly as `data[idx+1]` does at line 108 —
then takes the (end-clamped, as Python slices are) value bytes and stores
them in the options dict, later occurrences of a code overwriting earlier
ones.  The loop stops when `idx` reaches the buffer end.

The `fuel` argument only bounds the recursion; every iteration consumes at
least one byte of the suffix, so with `fuel` at least the suffix length
(as `parseOpts` supplies) the `fuel = 0` arm is never reached. -/
def parseOptsGo : Nat → List Nat → List (Nat × List Nat) → Except Unit (List (Nat × List Nat))
  | _, [], acc => .ok acc
  | 0, _ :: _, acc => .ok acc
  | fuel + 1, c :: rest, acc =>
      if c = 255 then .ok acc
      else if c = 0 then parseOptsGo fuel rest acc
      else
        match rest with
        | [] => .error ()
        | len :: rest2 => parseOptsGo fuel (rest2.drop len) (updateAssoc acc c (rest2.take len))

/-- Options parsing applied to the option region `data[240:]`. -/
def parseOpts (tail : List Nat) : Except Unit (List (Nat × List Nat)) :=
  parseOptsGo tail.length tail []

/-- One lower-case hex digit, as `'%x'` renders 0-15. -/
def hexDigitChar (n : Nat) : Char :=
  if n < 10 then Char.ofNat (48 + n) else Char.ofNat (87 + n)

/-- `'%02x' % b` for a byte value `b < 256`: two lower-case hex digits. -/
def hex2 (b : Nat) : String :=
  String.mk [hexDigitChar (b / 16 % 16), hexDigitChar (b % 16)]

/-- Lines 117-118: `mac_bytes = chaddr[:6]` and
`mac_str = ':'.join('%02x' % b for b in mac_bytes)` — the client key is
the first six chaddr bytes rendered as a lower-case colon-separated hex
string; `htype` and `hlen` are never consulted. -/
def renderMac (chaddr : List Nat) : String :=
  String.intercalate ":" ((chaddr.take 6).map hex2)

/-- Number of fields of the format `'!BBBBIHHIIII16s'` (twelve codes:
`B,B,B,B,I,H,H,I,I,I,I,16s`). -/
def packHeaderFieldCount : Nat := 12

/-- Number of value arguments passed to `struct.pack` at line 140:
`2, 1, 6, 0, xid, 0, 0, 0, 0, 0, 0, 0, mac_bytes + b'\x00'*10` —
thirteen. -/
def sendReplyPackArgCount : Nat := 13

/-- `DHCPServer.send_reply` (lines 137-179).  Its first statement is
`struct.pack('!BBBBIHHIIII16s', ...)` with thirteen values for a
twelve-field format; `struct.pack` raises `struct.error` whenever the
item count differs from the field count, and the raise is outside any
`try` block, so `send_reply` always raises before constructing any bytes
and no reply packet ever exists.  The `.ok` branch below is unreachable
(its guard is decidably false) and carries no packet for that reason. -/
def sendReplyBytes (xid : Nat) (macBytes : List Nat) (yiaddr : Nat) (msgType : Nat) :
    Except Unit (List Nat) :=
  if sendReplyPackArgCount = packHeaderFieldCount then .ok [] else .error ()

/-- `DHCPServer.handle_packet` (lines 87-135), as one function from the
lease state, the received bytes and the current time to the final lease
state plus either `.ok r` (normal return, `r` the reply bytes passed to
`sendto`, if any) or `.error ()` (an uncaught exception left
`handle_packet`; the receive loop at lines 74-80 catches it, so the
observable outcome is also "no reply", with whatever state mutations had
already happened kept).

Control flow mirrors the source: a buffer shorter than 240 bytes returns
silently (line 90); then the header unpack of `data[:28]` runs (line 93,
see `structUnpackHeader` — it always raises); then the magic-cookie check
(line 96), option parsing (lines 100-111), the message-type check (lines
113-115, where an absent *or empty* option 53 is falsy and drops the
packet), and the DISCOVER/REQUEST dispatch (lines 120-135).  On REQUEST,
an empty option 50 is falsy (line 129) and `socket.inet_ntoa` raises
`OSError` unless the value is exactly 4 bytes (line 130). -/
def handlePacket (s : LeaseState) (data : List Nat) (now : Int) :
    LeaseState × Except Unit (Option (List Nat)) :=
  if data.length < 240 then (s, .ok none)
  else
    match structUnpackHeader (data.take 28) with
    | .error _ => (s, .error ())
    | .ok hdr =>
      if (data.drop 236).take 4 ≠ MAGIC then (s, .ok none)
      else
        match parseOpts (data.drop 240) with
        | .error _ => (s, .error ())
        | .ok opts =>
          match lookupAssoc opts 53 with
          | none => (s, .ok none)
          | some [] => (s, .ok none)
          | some (mt :: _) =>
            let mac := renderMac hdr.chaddr
            if mt = 1 then
              match offerIp s mac now with
              | (s1, some ip) =>
                  (s1, (sendReplyBytes hdr.xid (hdr.chaddr.take 6) ip 2).map some)
              | (s1, none) => (s1, .ok none)
            else if mt = 3 then
              match lookupAssoc opts 50 with
              | none => (s, .ok none)
              | some [] => (s, .ok none)
              | some v =>
                  if v.length = 4 then
                    let s1 := commitLease s mac (beNat v) now
                    (s1, (sendReplyBytes hdr.xid (hdr.chaddr.take 6) (beNat v) 5).map some)
                  else (s, .error ())
            else (s, .ok none)

/-- The handler "produces no reply": it either returned normally with no
reply or raised. -/
def noReply (r : Except Unit (Option (List Nat))) : Prop :=
  ∀ bs : List Nat, r ≠ .ok (some bs)

/-! ## Association-list (dict) lemmas -/

theorem lookupAssoc_updateAssoc_self {κ α : Type} [DecidableEq κ]
    (l : List (κ × α)) (k : κ) (v : α) :
    lookupAssoc (updateAssoc l k v) k = some v := by
  induction l with
  | nil => simp [updateAssoc, lookupAssoc]
  | cons p rest ih =>
    by_cases h : p.1 = k
    · simp [updateAssoc, h, lookupAssoc]
    · simp [updateAssoc, h, lookupAssoc, ih]

theorem lookupAssoc_updateAssoc_other {κ α : Type} [DecidableEq κ]
    (l : List (κ × α)) (k k' : κ) (v : α) (hne : k ≠ k') :
    lookupAssoc (updateAssoc l k v) k' = lookupAssoc l k' := by
  induction l with
  | nil => simp [updateAssoc, lookupAssoc, hne]
  | cons p rest ih =>
    by_cases h : p.1 = k
    · simp [updateAssoc, h, lookupAssoc, hne]
    · simp [updateAssoc, h, lookupAssoc, ih]

theorem lookupAssoc_eraseAssoc_self {κ α : Type} [DecidableEq κ]
    (l : List (κ × α)) (k : κ) :
    lookupAssoc (eraseAssoc l k) k = none := by
  induction l with
  | nil => simp [eraseAssoc, lookupAssoc]
  | cons p rest ih =>
    by_cases h : p.1 = k
    · simpa [eraseAssoc, List.filter_cons, h] using ih
    · simpa [eraseAssoc, List.filter_cons, h, lookupAssoc] using ih

theorem lookupAssoc_eraseAssoc_other {κ α : Type} [DecidableEq κ]
    (l : List (κ × α)) (k k' : κ) (hne : k ≠ k') :
    lookupAssoc (eraseAssoc l k) k' = lookupAssoc l k' := by
  induction l with
  | nil => simp [eraseAssoc, lookupAssoc]
  | cons p rest ih =>
    simp only [eraseAssoc] at ih ⊢
    rw [List.filter_cons]
    by_cases h : p.1 = k
    · have hpk' : ¬ p.1 = k' := fun hh => hne (h.symm.trans hh)
      rw [if_neg (by simp [h]), ih, lookupAssoc, if_neg hpk']
    · rw [if_pos (by simp [h])]
      simp only [lookupAssoc]
      rw [ih]

theorem lookupAssoc_mem {κ α : Type} [DecidableEq κ]
    {l : List (κ × α)} {k : κ} {v : α} (h : lookupAssoc l k = some v) :
    (k, v) ∈ l := by
  induction l with
  | nil => simp [lookupAssoc] at h
  | cons p rest ih =>
    by_cases hp : p.1 = k
    · simp [lookupAssoc, hp] at h
      cases p with
      | mk a b =>
        simp at hp h
        subst hp
        subst h
        exact List.mem_cons_self _ _
    · simp [lookupAssoc, hp] at h
      exact List.mem_cons_of_mem _ (ih h)

theorem updateAssoc_of_fresh {κ α : Type} [DecidableEq κ]
    (l : List (κ × α)) (k : κ) (v : α) (h : k ∉ l.map Prod.fst) :
    updateAssoc l k v = l ++ [(k, v)] := by
  induction l with
  | nil => simp [updateAssoc]
  | cons p rest ih =>
    have h1 : ¬ p.1 = k := by
      intro hh
      apply h
      rw [List.map_cons, hh]
      exact List.mem_cons_self _ _
    have h2 : k ∉ rest.map Prod.fst := by
      intro hh
      apply h
      rw [List.map_cons]
      exact List.mem_cons_of_mem _ hh
    simp [updateAssoc, h1, ih h2]

/-! ## Helper lemmas about the handler -/

/-- A normal return with no reply produces no reply. -/
theorem noReply_ok_none : noReply (.ok none) := by
  intro bs h
  simp at h

/-- An uncaught exception produces no reply (the receive loop at lines
74-80 catches it and continues). -/
theorem noReply_error : noReply (.error ()) := by
  intro bs h
  simp at h

/-- For every buffer of at least 240 bytes, `handle_packet` raises before
touching the lease state: line 93 applies `struct.unpack` with a 44-byte
format to the 28-byte slice `data[:28]`, which raises `struct.error`
unconditionally. -/
theorem handlePacket_ge240 (s : LeaseState) (data : List Nat) (now : Int)
    (h : 240 ≤ data.length) :
    handlePacket s data now = (s, .error ()) := by
  have h28 : (data.take 28).length = 28 := by
    rw [List.length_take]
    omega
  have hu : structUnpackHeader (data.take 28) = .error () := by
    unfold structUnpackHeader
    rw [h28]
    simp [unpackHeaderCalcSize]
  unfold handlePacket
  rw [if_neg (by omega), hu]

/-! ## Claim theorems -/

/-- C1 (code_bug evidence): `offer_ip` puts the caller's *own* unexpired
offer into `used_ips` (line 38 filters only by expiry, not by MAC), so a
repeated DISCOVER from the same MAC before its offer expires is handed the
*next* address instead of the same one.  With the 2-address range
`[10, 11]`, MAC `m1` is first offered `10`; offering again one second
later (well inside the 60-second offer TTL, with no intervening commit)
yields `11`, not `10`. -/
theorem offer_not_idempotent :
    (offerIp (initState 10 11 3600) "m1" 0).2 = some 10 ∧
    (offerIp (offerIp (initState 10 11 3600) "m1" 0).1 "m1" 1).2 = some 11 ∧
    (offerIp (offerIp (initState 10 11 3600) "m1" 0).1 "m1" 1).2 ≠
      (offerIp (initState 10 11 3600) "m1" 0).2 := by
  refine ⟨?_, ?_, ?_⟩ <;> decide

/-- C4 (code_bug evidence): a 241-byte buffer with a valid magic cookie
whose option region is the single byte `53` (an option code with its
length byte missing).  Option parsing reads `data[idx+1]` past the buffer
end and raises `IndexError` instead of stopping at the buffer end. -/
def trailingCodeBuffer : List Nat := List.replicate 236 0 ++ MAGIC ++ [53]

/-- C4: the claim "option parsing terminates at the buffer end without any
failure, and never reads past the buffer end" fails on
`trailingCodeBuffer`: the buffer is ≥ 240 bytes with a valid magic cookie,
yet parsing its option region raises (line 108 reads `data[idx+1]` with
`idx+1` out of range). -/
theorem parse_reads_past_buffer_end :
    240 ≤ trailingCodeBuffer.length ∧
    (trailingCodeBuffer.drop 236).take 4 = MAGIC ∧
    parseOpts (trailingCodeBuffer.drop 240) = .error () := by
  set_option maxRecDepth 4000 in
  exact ⟨by decide, by decide, by rfl⟩

/-- C6: immediately after `commit_lease(mac, ip)` at time `t`, a lookup of
that MAC at any time `t' < t + lease_time` returns `ip`, and the MAC holds
no pending offer. -/
theorem commit_then_lookup (s : LeaseState) (m : String) (ip : Nat) (t t' : Int)
    (hpos : 0 < s.leaseTime) (ht' : t' < t + s.leaseTime) :
    (getLease (commitLease s m ip t) m t').2 = some ip ∧
    lookupAssoc (commitLease s m ip t).offered m = none := by
  constructor
  · simp [getLease, commitLease, lookupAssoc_updateAssoc_self, ht']
  · simp [commitLease, lookupAssoc_eraseAssoc_self]

/-- Witness for C6 at a concrete input. -/
theorem commit_then_lookup_witness :
    0 < (initState 10 11 3600).leaseTime ∧
    (5 : Int) < 0 + (initState 10 11 3600).leaseTime ∧
    ((getLease (commitLease (initState 10 11 3600) "aa:bb:cc:dd:ee:ff" 42 0)
        "aa:bb:cc:dd:ee:ff" 5).2 = some 42 ∧
      lookupAssoc (commitLease (initState 10 11 3600) "aa:bb:cc:dd:ee:ff" 42 0).offered
        "aa:bb:cc:dd:ee:ff" = none) :=
  ⟨by decide, by decide,
    commit_then_lookup (initState 10 11 3600) "aa:bb:cc:dd:ee:ff" 42 0 5
      (by decide) (by decide)⟩

/-- C8 (code_bug evidence): `send_reply` cannot encode anything: its first
statement passes thirteen values to the twelve-field format
`'!BBBBIHHIIII16s'`, so `struct.pack` raises `struct.error` for *every*
reply (any transaction id, MAC, yiaddr and message type), and no encoded
bytes ever exist for `decode` to round-trip. -/
theorem encode_always_raises (xid : Nat) (macBytes : List Nat) (yiaddr msgType : Nat) :
    sendReplyBytes xid macBytes yiaddr msgType = .error () ∧
    sendReplyPackArgCount ≠ packHeaderFieldCount :=
  ⟨rfl, by decide⟩

/-- C10: the client key of lines 117-118 is computed from exactly the
first six bytes of `chaddr` (neither `htype` nor `hlen` is an input of
`renderMac`), so any two packets whose `chaddr` fields agree on the first
six bytes get the same key and are treated as the same client by the
offer, commit and lookup operations. -/
theorem mac_key_first6 (c1 c2 : List Nat) (h : c1.take 6 = c2.take 6)
    (s : LeaseState) (t : Int) (ip : Nat) :
    renderMac c1 = renderMac c2 ∧
    offerIp s (renderMac c1) t = offerIp s (renderMac c2) t ∧
    commitLease s (renderMac c1) ip t = commitLease s (renderMac c2) ip t ∧
    getLease s (renderMac c1) t = getLease s (renderMac c2) t := by
  have hk : renderMac c1 = renderMac c2 := by
    unfold renderMac
    rw [h]
  exact ⟨hk, by rw [hk], by rw [hk], by rw [hk]⟩

/-- Witness for C10: two 16-byte chaddr fields that differ only past byte
six (and come from packets with different htype/hlen, which `renderMac`
never reads). -/
theorem mac_key_first6_witness :
    ([1, 2, 3, 4, 5, 6, 7] : List Nat).take 6 = ([1, 2, 3, 4, 5, 6, 250] : List Nat).take 6 ∧
    (renderMac [1, 2, 3, 4, 5, 6, 7] = renderMac [1, 2, 3, 4, 5, 6, 250] ∧
      offerIp (initState 10 11 3600) (renderMac [1, 2, 3, 4, 5, 6, 7]) 0 =
        offerIp (initState 10 11 3600) (renderMac [1, 2, 3, 4, 5, 6, 250]) 0 ∧
      commitLease (initState 10 11 3600) (renderMac [1, 2, 3, 4, 5, 6, 7]) 42 0 =
        commitLease (initState 10 11 3600) (renderMac [1, 2, 3, 4, 5, 6, 250]) 42 0 ∧
      getLease (initState 10 11 3600) (renderMac [1, 2, 3, 4, 5, 6, 7]) 0 =
        getLease (initState 10 11 3600) (renderMac [1, 2, 3, 4, 5, 6, 250]) 0) :=
  ⟨by decide, mac_key_first6 [1, 2, 3, 4, 5, 6, 7] [1, 2, 3, 4, 5, 6, 250] (by decide)
    (initState 10 11 3600) 0 42⟩

/-! ## C3: expiry and address reuse -/

/-- A lease state whose only entry is a binding of `m1` to the first
address `A` of the range `[A, B]`, with expiry `e`. -/
def singleBindingState (m1 : String) (A B : Nat) (L e : Int) : LeaseState :=
  { rangeStart := A, rangeEnd := B, leaseTime := L,
    leases := [(m1, ⟨A, e⟩)], offered := [] }

/-- C3 counterexample: range `[10, 10]`, `m1` bound to `10` with expiry
`5`, current time `20` (the binding is expired).  `lookup(m1)` does treat
the binding as absent, but `offer("m2", 20)` returns `None` — not `10` —
and leaves the state unchanged, because line 37 collects *all* bound
addresses into `used_ips` without checking expiry and only `get_lease`
(called for the requesting MAC alone) removes stale bindings.  So the
expired binding's address is *not* eligible for reuse by a different MAC's
offer, contradicting the claim's "for any MAC, including a different
one". -/
theorem expired_binding_blocks_other_mac :
    (getLease (singleBindingState "m1" 10 10 3600 5) "m1" 20).2 = none ∧
    offerIp (singleBindingState "m1" 10 10 3600 5) "m2" 20 =
      (singleBindingState "m1" 10 10 3600 5, none) := by
  constructor <;> decide

/-- `get_lease` on the single expired binding deletes it and returns
`None`. -/
theorem getLease_singleBinding_expired (m1 : String) (A B : Nat) (L e t : Int)
    (he : e ≤ t) :
    getLease (singleBindingState m1 A B L e) m1 t =
      ({ rangeStart := A, rangeEnd := B, leaseTime := L, leases := [], offered := [] }, none) := by
  unfold getLease singleBindingState
  simp [lookupAssoc, not_lt.mpr he, eraseAssoc, List.filter_cons]

/-- `offer_ip` on a state with no leases and no offers hands out the first
address of the range. -/
theorem offerIp_on_empty (s : LeaseState) (m : String) (t : Int)
    (hleases : s.leases = []) (hoff : s.offered = []) (hAB : s.rangeStart ≤ s.rangeEnd) :
    offerIp s m t =
      ({ s with offered := [(m, ⟨s.rangeStart, t + 60⟩)] }, some s.rangeStart) := by
  have hcount : s.rangeEnd + 1 - s.rangeStart = (s.rangeEnd - s.rangeStart) + 1 := by omega
  simp only [offerIp, getLease, usedIps, hleases, hoff, lookupAssoc, List.map_nil,
    List.filter_nil, List.nil_append, hcount, List.range'_succ, List.find?_cons,
    List.contains, List.elem, Bool.not_false, updateAssoc]

/-- C3 (amended): a binding whose expiry is in the past is treated as
absent by `lookup` (and removed by that read); its address is eligible for
reuse by a fresh `offer` from the *same* MAC (whose internal `get_lease`
call removes the stale entry first), and a *different* MAC can be offered
the address only once the stale entry has been removed, e.g. by a `lookup`
of the expired MAC.  Stated on a state holding exactly the expired binding
`m1 -> A` over the range `[A, B]`. -/
theorem expired_binding_lookup_and_reuse (m1 : String) (A B : Nat) (L e t : Int)
    (hAB : A ≤ B) (he : e ≤ t) :
    (getLease (singleBindingState m1 A B L e) m1 t).2 = none ∧
    (offerIp (singleBindingState m1 A B L e) m1 t).2 = some A ∧
    ∀ m2 : String,
      (offerIp (getLease (singleBindingState m1 A B L e) m1 t).1 m2 t).2 = some A := by
  have hg := getLease_singleBinding_expired m1 A B L e t he
  refine ⟨by rw [hg], ?_, ?_⟩
  · unfold offerIp
    rw [hg]
    have := offerIp_on_empty
      ({ rangeStart := A, rangeEnd := B, leaseTime := L, leases := [], offered := [] })
      m1 t rfl rfl hAB
    unfold offerIp at this
    simp only [getLease, lookupAssoc] at this ⊢
    rw [this]
  · intro m2
    rw [hg]
    rw [offerIp_on_empty _ m2 t rfl rfl hAB]

/-- Witness for C3's amended theorem at a concrete input. -/
theorem expired_binding_lookup_and_reuse_witness :
    (10 : Nat) ≤ 11 ∧ (5 : Int) ≤ 20 ∧
    ((getLease (singleBindingState "m1" 10 11 3600 5) "m1" 20).2 = none ∧
      (offerIp (singleBindingState "m1" 10 11 3600 5) "m1" 20).2 = some 10 ∧
      ∀ m2 : String,
        (offerIp (getLease (singleBindingState "m1" 10 11 3600 5) "m1" 20).1 m2 20).2 =
          some 10) :=
  ⟨by decide, by decide,
    expired_binding_lookup_and_reuse "m1" 10 11 3600 5 20 (by decide) (by decide)⟩

/-! ## C5 and C9: packets that produce no reply and no state change -/

/-- C5: a buffer shorter than 240 bytes, a buffer of at least 240 bytes
whose bytes 236-239 are not the magic cookie `63 82 53 63`, and a
parseable buffer whose message-type option (code 53) is absent or empty,
all leave the lease state untouched and produce no reply.  (The short
buffer returns at line 90-91; for any 240-byte-or-longer buffer the header
unpack at line 93 raises before the cookie or option-53 checks are
reached, and the exception — caught by the receive loop — also means no
reply and no state mutation.) -/
theorem malformed_no_reply (s : LeaseState) (data : List Nat) (now : Int)
    (h : data.length < 240 ∨
      (240 ≤ data.length ∧ (data.drop 236).take 4 ≠ MAGIC) ∨
      (240 ≤ data.length ∧ (data.drop 236).take 4 = MAGIC ∧
        ∃ opts, parseOpts (data.drop 240) = .ok opts ∧
          (lookupAssoc opts 53 = none ∨ lookupAssoc opts 53 = some []))) :
    (handlePacket s data now).1 = s ∧ noReply (handlePacket s data now).2 := by
  rcases h with h | ⟨h, -⟩ | ⟨h, -, -⟩
  · unfold handlePacket
    rw [if_pos h]
    exact ⟨rfl, noReply_ok_none⟩
  · rw [handlePacket_ge240 s data now h]
    exact ⟨rfl, noReply_error⟩
  · rw [handlePacket_ge240 s data now h]
    exact ⟨rfl, noReply_error⟩

/-- Witness for C5: the empty buffer (0 bytes, i.e. shorter than 240). -/
theorem malformed_no_reply_witness :
    (([] : List Nat).length < 240 ∨
      (240 ≤ ([] : List Nat).length ∧ (([] : List Nat).drop 236).take 4 ≠ MAGIC) ∨
      (240 ≤ ([] : List Nat).length ∧ (([] : List Nat).drop 236).take 4 = MAGIC ∧
        ∃ opts, parseOpts (([] : List Nat).drop 240) = .ok opts ∧
          (lookupAssoc opts 53 = none ∨ lookupAssoc opts 53 = some []))) ∧
    ((handlePacket (initState 10 11 3600) [] 0).1 = initState 10 11 3600 ∧
      noReply (handlePacket (initState 10 11 3600) [] 0).2) :=
  ⟨Or.inl (by decide), malformed_no_reply (initState 10 11 3600) [] 0 (Or.inl (by decide))⟩

/-- C9: a well-formed packet — at least 240 bytes, valid magic cookie,
parseable options with a non-empty message-type option — whose message
type is neither 1 (DISCOVER) nor 3 (REQUEST) produces no reply and leaves
the offers and bindings unchanged.  (In the source this outcome is reached
for *every* packet of 240 bytes or more, because the header unpack at line
93 raises first; the dispatch at lines 120-135, which would also fall
through silently for such message types, is never reached.) -/
theorem other_message_types_no_reply (s : LeaseState) (data : List Nat) (now : Int)
    (opts : List (Nat × List Nat)) (mt : Nat) (restBytes : List Nat)
    (hlen : 240 ≤ data.length)
    (hmagic : (data.drop 236).take 4 = MAGIC)
    (hparse : parseOpts (data.drop 240) = .ok opts)
    (h53 : lookupAssoc opts 53 = some (mt :: restBytes))
    (hmt1 : mt ≠ 1) (hmt3 : mt ≠ 3) :
    (handlePacket s data now).1 = s ∧ noReply (handlePacket s data now).2 := by
  rw [handlePacket_ge240 s data now hlen]
  exact ⟨rfl, noReply_error⟩

/-- A concrete well-formed packet whose message type is 8: 236 zero bytes,
the magic cookie, then options `53 01 08 ff`. -/
def packetType8 : List Nat := List.replicate 236 0 ++ MAGIC ++ [53, 1, 8, 255]

/-- Witness for C9 on `packetType8`. -/
theorem other_message_types_no_reply_witness :
    240 ≤ packetType8.length ∧
    (packetType8.drop 236).take 4 = MAGIC ∧
    parseOpts (packetType8.drop 240) = .ok [(53, [8])] ∧
    lookupAssoc [(53, [8])] 53 = some (8 :: []) ∧
    (8 : Nat) ≠ 1 ∧ (8 : Nat) ≠ 3 ∧
    ((handlePacket (initState 10 11 3600) packetType8 0).1 = initState 10 11 3600 ∧
      noReply (handlePacket (initState 10 11 3600) packetType8 0).2) := by
  set_option maxRecDepth 4000 in
  refine ⟨by decide, by decide, by rfl, by decide, by decide, by decide,
    other_message_types_no_reply (initState 10 11 3600) packetType8 0 [(53, [8])] 8 []
      (by decide) (by decide) (by rfl) (by decide) (by decide) (by decide)⟩

/-! ## C2: the uniqueness invariant over handler-driven operation sequences -/

/-- One Lease Pool operation, as the protocol handler invokes them:
`offer_ip(mac)` on DISCOVER (line 122), `commit_lease(mac, requested_ip)`
on REQUEST with whatever address the client's option 50 names (lines
129-134, no validation), and `get_lease(mac)` (lookup).  Each carries the
wall-clock time of the call. -/
inductive Step where
  | offer (mac : String) (t : Int)
  | commit (mac : String) (ip : Nat) (t : Int)
  | lookup (mac : String) (t : Int)
  deriving DecidableEq, Repr

/-- State effect of one operation. -/
def applyStep (s : LeaseState) : Step → LeaseState
  | .offer m t => (offerIp s m t).1
  | .commit m ip t => commitLease s m ip t
  | .lookup m t => (getLease s m t).1

/-- Run a sequence of operations from a state. -/
def runSteps (s : LeaseState) (l : List Step) : LeaseState :=
  l.foldl applyStep s

/-- The wall-clock time of an operation. -/
def stepTime : Step → Int
  | .offer _ t => t
  | .commit _ _ t => t
  | .lookup _ t => t

/-- All entries (binding and/or pending offer) a MAC holds in a state. -/
def entriesOf (s : LeaseState) (m : String) : List Entry :=
  (lookupAssoc s.leases m).toList ++ (lookupAssoc s.offered m).toList

/-- C2's uniqueness property, observed at time `t`: no two distinct MACs
hold non-expired entries (offers or bindings) with the same address. -/
def UniqueIps (s : LeaseState) (t : Int) : Prop :=
  ∀ m1 m2 e1 e2, m1 ≠ m2 → e1 ∈ entriesOf s m1 → e2 ∈ entriesOf s m2 →
    t < e1.expiry → t < e2.expiry → e1.ip ≠ e2.ip

/-- C2 counterexample: from the empty pool, two commits of the *same*
address `10` for the distinct MACs `m1` and `m2` (exactly what two REQUEST
packets both naming `10` in option 50 would drive, since line 134 commits
the client-chosen address with no validation) leave both MACs bound to
`10` with unexpired leases: the uniqueness invariant fails. -/
theorem uniqueness_fails_on_unvalidated_commit :
    ¬ UniqueIps (runSteps (initState 10 11 3600)
      [.commit "m1" 10 0, .commit "m2" 10 0]) 0 := by
  intro h
  exact h "m1" "m2" ⟨10, 3600⟩ ⟨10, 3600⟩ (by decide) (by decide) (by decide)
    (by decide) (by decide) rfl

/-- A commit is *validated* when the committed address is exactly the
committing MAC's own unexpired pending offer (the check the source
deliberately omits, per its comments at lines 131-133); offers and lookups
are unrestricted. -/
def stepOk (s : LeaseState) : Step → Bool
  | .commit m ip t =>
      match lookupAssoc s.offered m with
      | some e => ip = e.ip && decide (t < e.expiry)
      | none => false
  | _ => true

/-- Every commit along the run is validated against the state it executes
in. -/
def goodRun (s : LeaseState) : List Step → Bool
  | [] => true
  | st :: rest => stepOk s st && goodRun (applyStep s st) rest

/-- The operation times are nondecreasing, starting no earlier than
`t0`. -/
def timesOkFrom (t0 : Int) : List Step → Bool
  | [] => true
  | st :: rest => decide (t0 ≤ stepTime st) && timesOkFrom (stepTime st) rest

/-- Uniqueness is monotone in the observation time: later observation only
shrinks the set of non-expired entries. -/
theorem uniqueIps_mono_time (s : LeaseState) (t t' : Int) (h : t ≤ t')
    (hU : UniqueIps s t) : UniqueIps s t' := by
  intro m1 m2 e1 e2 hne h1 h2 hx1 hx2
  exact hU m1 m2 e1 e2 hne h1 h2 (lt_of_le_of_lt h hx1) (lt_of_le_of_lt h hx2)

/-- Uniqueness transfers along pointwise inclusion of entries. -/
theorem uniqueIps_of_entries_subset (s s' : LeaseState) (t : Int)
    (hsub : ∀ m e, e ∈ entriesOf s' m → e ∈ entriesOf s m)
    (hU : UniqueIps s t) : UniqueIps s' t := by
  intro m1 m2 e1 e2 hne h1 h2 hx1 hx2
  exact hU m1 m2 e1 e2 hne (hsub m1 e1 h1) (hsub m2 e2 h2) hx1 hx2

/-- `get_lease` only ever deletes an entry: the state it leaves behind has
a subset of the entries. -/
theorem getLease_fst_entries (s : LeaseState) (m : String) (t : Int) :
    ∀ m' e, e ∈ entriesOf (getLease s m t).1 m' → e ∈ entriesOf s m' := by
  intro m' e he
  unfold getLease at he
  split at he
  next e0 heq =>
    split at he
    next hx => exact he
    next hx =>
      unfold entriesOf at he ⊢
      simp only at he
      by_cases hm : m' = m
      · subst hm
        rw [lookupAssoc_eraseAssoc_self] at he
        simp only [Option.toList_none, List.nil_append] at he
        exact List.mem_append_right _ he
      · rwa [lookupAssoc_eraseAssoc_other _ _ _ (fun hh => hm hh.symm)] at he
  next heq => exact he

/-- `get_lease` never touches the offered dict. -/
theorem getLease_fst_offered (s : LeaseState) (m : String) (t : Int) :
    (getLease s m t).1.offered = s.offered := by
  unfold getLease
  split
  next e0 heq =>
    split
    next hx => rfl
    next hx => rfl
  next heq => rfl

/-- `get_lease` keeps the configured range. -/
theorem getLease_fst_range (s : LeaseState) (m : String) (t : Int) :
    (getLease s m t).1.rangeStart = s.rangeStart ∧
    (getLease s m t).1.rangeEnd = s.rangeEnd ∧
    (getLease s m t).1.leaseTime = s.leaseTime := by
  unfold getLease
  split
  next e0 heq =>
    split
    next hx => exact ⟨rfl, rfl, rfl⟩
    next hx => exact ⟨rfl, rfl, rfl⟩
  next heq => exact ⟨rfl, rfl, rfl⟩

/-- When `get_lease` answers `None`, the MAC holds no binding in the state
`get_lease` leaves behind (it was absent, or expired and just deleted). -/
theorem getLease_none_no_lease (s : LeaseState) (m : String) (t : Int) :
    (getLease s m t).2 = none → lookupAssoc (getLease s m t).1.leases m = none := by
  unfold getLease
  split
  next e0 heq =>
    split
    next hx =>
      intro h
      simp at h
    next hx =>
      intro h
      exact lookupAssoc_eraseAssoc_self _ _
  next heq =>
    intro h
    exact heq

/-- A MAC's non-expired entry contributes its address to `used_ips` (a
binding contributes regardless of expiry; an offer contributes when
unexpired). -/
theorem ip_mem_usedIps (s : LeaseState) (t : Int) (m : String) (e : Entry)
    (he : e ∈ entriesOf s m) (hx : t < e.expiry) : e.ip ∈ usedIps s t := by
  unfold entriesOf at he
  unfold usedIps
  rcases List.mem_append.mp he with hl | ho
  · rw [Option.mem_toList, Option.mem_def] at hl
    exact List.mem_append_left _
      (List.mem_map.mpr ⟨(m, e), lookupAssoc_mem hl, rfl⟩)
  · rw [Option.mem_toList, Option.mem_def] at ho
    refine List.mem_append_right _ (List.mem_map.mpr ⟨(m, e), ?_, rfl⟩)
    exact List.mem_filter.mpr ⟨lookupAssoc_mem ho, by simpa using hx⟩

/-- The empty pool trivially satisfies uniqueness. -/
theorem uniqueIps_init (lo hi : Nat) (L : Int) (t : Int) :
    UniqueIps (initState lo hi L) t := by
  intro m1 m2 e1 e2 hne h1 h2 hx1 hx2
  simp [entriesOf, initState, lookupAssoc] at h1

/-- A lookup preserves uniqueness (it only deletes entries). -/
theorem lookup_preserves (s : LeaseState) (m : String) (t : Int)
    (hU : UniqueIps s t) : UniqueIps (getLease s m t).1 t :=
  uniqueIps_of_entries_subset _ _ _ (getLease_fst_entries s m t) hU

/-- An offer preserves uniqueness: the scanned address is outside
`used_ips`, which contains every other MAC's non-expired entry. -/
theorem offer_preserves (s : LeaseState) (m : String) (t : Int)
    (hU : UniqueIps s t) : UniqueIps (offerIp s m t).1 t := by
  have hU1 : UniqueIps (getLease s m t).1 t :=
    uniqueIps_of_entries_subset _ _ _ (getLease_fst_entries s m t) hU
  simp only [offerIp]
  split
  next ip heq => exact hU1
  next heq =>
    split
    next ipN hf =>
      have hno : lookupAssoc (getLease s m t).1.leases m = none :=
        getLease_none_no_lease s m t heq
      have hfree : ipN ∉ usedIps (getLease s m t).1 t := by
        have hp := List.find?_some hf
        simp only [Bool.not_eq_true'] at hp
        simp [List.contains, List.elem_iff] at hp
        exact hp
      intro m1 m2 e1 e2 hne h1 h2 hx1 hx2
      unfold entriesOf at h1 h2
      simp only at h1 h2
      by_cases hm1 : m1 = m <;> by_cases hm2 : m2 = m
      · exact absurd (hm1.trans hm2.symm) hne
      · rw [hm1] at h1
        rw [hno, lookupAssoc_updateAssoc_self] at h1
        simp only [Option.toList_none, Option.toList_some, List.nil_append,
          List.mem_singleton] at h1
        subst h1
        rw [lookupAssoc_updateAssoc_other _ _ _ _ (fun hh => hm2 hh.symm)] at h2
        have h2' : e2 ∈ entriesOf (getLease s m t).1 m2 := h2
        have hmem := ip_mem_usedIps _ t m2 e2 h2' hx2
        intro hcontra
        rw [show (Entry.mk ipN (t + 60)).ip = ipN from rfl] at hcontra
        rw [← hcontra] at hmem
        exact hfree hmem
      · rw [hm2] at h2
        rw [hno, lookupAssoc_updateAssoc_self] at h2
        simp only [Option.toList_none, Option.toList_some, List.nil_append,
          List.mem_singleton] at h2
        subst h2
        rw [lookupAssoc_updateAssoc_other _ _ _ _ (fun hh => hm1 hh.symm)] at h1
        have h1' : e1 ∈ entriesOf (getLease s m t).1 m1 := h1
        have hmem := ip_mem_usedIps _ t m1 e1 h1' hx1
        intro hcontra
        rw [show (Entry.mk ipN (t + 60)).ip = ipN from rfl] at hcontra
        rw [hcontra] at hmem
        exact hfree hmem
      · rw [lookupAssoc_updateAssoc_other _ _ _ _ (fun hh => hm1 hh.symm)] at h1
        rw [lookupAssoc_updateAssoc_other _ _ _ _ (fun hh => hm2 hh.symm)] at h2
        exact hU1 m1 m2 e1 e2 hne h1 h2 hx1 hx2
    next hf => exact hU1

/-- A *validated* commit preserves uniqueness: the committed address is
the MAC's own unexpired offer, which uniqueness already keeps apart from
every other MAC's non-expired entry. -/
theorem commit_preserves (s : LeaseState) (m : String) (ip : Nat) (t : Int)
    (hok : stepOk s (.commit m ip t) = true) (hU : UniqueIps s t) :
    UniqueIps (commitLease s m ip t) t := by
  simp only [stepOk] at hok
  split at hok
  next eo heq =>
    rw [Bool.and_eq_true] at hok
    have hip : ip = eo.ip := of_decide_eq_true hok.1
    have hexp : t < eo.expiry := of_decide_eq_true hok.2
    have heo : eo ∈ entriesOf s m := by
      unfold entriesOf
      exact List.mem_append_right _ (by simp [Option.mem_toList, Option.mem_def, heq])
    intro m1 m2 e1 e2 hne h1 h2 hx1 hx2
    unfold commitLease entriesOf at h1 h2
    simp only at h1 h2
    by_cases hm1 : m1 = m <;> by_cases hm2 : m2 = m
    · exact absurd (hm1.trans hm2.symm) hne
    · rw [hm1] at h1 hne
      rw [lookupAssoc_updateAssoc_self, lookupAssoc_eraseAssoc_self] at h1
      simp only [Option.toList_some, Option.toList_none, List.append_nil,
        List.mem_singleton] at h1
      subst h1
      rw [lookupAssoc_updateAssoc_other _ _ _ _ (fun hh => hm2 hh.symm),
        lookupAssoc_eraseAssoc_other _ _ _ (fun hh => hm2 hh.symm)] at h2
      have h2' : e2 ∈ entriesOf s m2 := h2
      have := hU m m2 eo e2 hne heo h2' hexp hx2
      intro hcontra
      rw [show (Entry.mk ip (t + s.leaseTime)).ip = ip from rfl, hip] at hcontra
      exact this hcontra
    · rw [hm2] at h2 hne
      rw [lookupAssoc_updateAssoc_self, lookupAssoc_eraseAssoc_self] at h2
      simp only [Option.toList_some, Option.toList_none, List.append_nil,
        List.mem_singleton] at h2
      subst h2
      rw [lookupAssoc_updateAssoc_other _ _ _ _ (fun hh => hm1 hh.symm),
        lookupAssoc_eraseAssoc_other _ _ _ (fun hh => hm1 hh.symm)] at h1
      have h1' : e1 ∈ entriesOf s m1 := h1
      have := hU m1 m e1 eo hne h1' heo hx1 hexp
      intro hcontra
      rw [show (Entry.mk ip (t + s.leaseTime)).ip = ip from rfl, hip] at hcontra
      exact this hcontra
    · rw [lookupAssoc_updateAssoc_other _ _ _ _ (fun hh => hm1 hh.symm),
        lookupAssoc_eraseAssoc_other _ _ _ (fun hh => hm1 hh.symm)] at h1
      rw [lookupAssoc_updateAssoc_other _ _ _ _ (fun hh => hm2 hh.symm),
        lookupAssoc_eraseAssoc_other _ _ _ (fun hh => hm2 hh.symm)] at h2
      exact hU m1 m2 e1 e2 hne h1 h2 hx1 hx2
  next heq => simp at hok

/-- Induction along a run: from a state satisfying uniqueness, any
sequence of handler operations with nondecreasing times and validated
commits preserves uniqueness at every later observation time. -/
theorem uniqueRun (steps : List Step) : ∀ (s : LeaseState) (t0 : Int),
    UniqueIps s t0 → goodRun s steps = true → timesOkFrom t0 steps = true →
    ∀ t : Int, t0 ≤ t → (∀ u ∈ steps.map stepTime, u ≤ t) →
    UniqueIps (runSteps s steps) t := by
  induction steps with
  | nil =>
    intro s t0 hU _ _ t ht0 _
    exact uniqueIps_mono_time s t0 t ht0 hU
  | cons st rest ih =>
    intro s t0 hU hg hm t ht0 hts
    rw [goodRun, Bool.and_eq_true] at hg
    rw [timesOkFrom, Bool.and_eq_true] at hm
    have hle' : t0 ≤ stepTime st := of_decide_eq_true hm.1
    have hUst : UniqueIps s (stepTime st) := uniqueIps_mono_time s t0 _ hle' hU
    have hUnext : UniqueIps (applyStep s st) (stepTime st) := by
      cases st with
      | offer m tm => exact offer_preserves s m tm hUst
      | commit m ip tm => exact commit_preserves s m ip tm hg.1 hUst
      | lookup m tm => exact lookup_preserves s m tm hUst
    exact ih (applyStep s st) (stepTime st) hUnext hg.2 hm.2 t
      (hts _ (by simp)) (fun u hu => hts u (by simp [hu]))

/-- C2 (amended): starting from the empty pool, for every sequence of
offer/commit/lookup operations with nondecreasing times in which every
commit supplies the committing MAC's own unexpired offered address (the
validation the source omits), no two distinct MACs among the non-expired
offers and bindings map to the same address at any observation time `t`
not earlier than the operations.  Without that restriction the claim
fails: see the counterexample, where two unvalidated commits (as driven by
two REQUEST packets naming the same address) bind two MACs to one
address. -/
theorem uniqueness_of_validated_runs (lo hi : Nat) (L : Int) (steps : List Step)
    (t0 t : Int)
    (hgood : goodRun (initState lo hi L) steps = true)
    (hmono : timesOkFrom t0 steps = true)
    (ht0 : t0 ≤ t)
    (hts : ∀ u ∈ steps.map stepTime, u ≤ t) :
    UniqueIps (runSteps (initState lo hi L) steps) t :=
  uniqueRun steps (initState lo hi L) t0 (uniqueIps_init lo hi L t0) hgood hmono t ht0 hts

/-- Witness for C2's amended theorem: a DISCOVER/REQUEST handshake for
`m1` followed by one for `m2` over the range `[10, 11]`, each commit
confirming the MAC's own offer. -/
theorem uniqueness_of_validated_runs_witness :
    goodRun (initState 10 11 3600)
      [.offer "m1" 0, .commit "m1" 10 1, .offer "m2" 2, .commit "m2" 11 3] = true ∧
    timesOkFrom 0
      [.offer "m1" 0, .commit "m1" 10 1, .offer "m2" 2, .commit "m2" 11 3] = true ∧
    (0 : Int) ≤ 3 ∧
    (∀ u ∈ ([Step.offer "m1" 0, .commit "m1" 10 1, .offer "m2" 2,
        .commit "m2" 11 3].map stepTime), u ≤ 3) ∧
    UniqueIps (runSteps (initState 10 11 3600)
      [.offer "m1" 0, .commit "m1" 10 1, .offer "m2" 2, .commit "m2" 11 3]) 3 :=
  ⟨by decide, by decide, by decide, by decide,
    uniqueness_of_validated_runs 10 11 3600
      [.offer "m1" 0, .commit "m1" 10 1, .offer "m2" 2, .commit "m2" 11 3] 0 3
      (by decide) (by decide) (by decide) (by decide)⟩

/-! ## C7: pool exhaustion -/

/-- Run a sequence of `offer_ip` calls, `(mac, time)` per call. -/
def runOffers (s : LeaseState) (ps : List (String × Int)) : LeaseState :=
  ps.foldl (fun s p => (offerIp s p.1 p.2).1) s

/-- One successful offer step: on a state with no bindings, whose offers
are all unexpired at `t ≥ tm` with pairwise distinct in-range addresses
and without the fresh MAC `m`, and with spare capacity, `offer_ip`
appends a fresh offer entry carrying a new in-range address. -/
theorem offer_step_fresh (s : LeaseState) (m : String) (tm t : Int)
    (hleases : s.leases = [])
    (hfresh : m ∉ s.offered.map Prod.fst)
    (hunexp : ∀ e ∈ s.offered, t < e.2.expiry)
    (hrange : ∀ e ∈ s.offered, s.rangeStart ≤ e.2.ip ∧ e.2.ip ≤ s.rangeEnd)
    (hips : (s.offered.map (fun p => p.2.ip)).Nodup)
    (hcap : s.offered.length < s.rangeEnd + 1 - s.rangeStart)
    (htm : tm ≤ t) :
    ∃ ipN : Nat,
      offerIp s m tm = ({ s with offered := s.offered ++ [(m, ⟨ipN, tm + 60⟩)] }, some ipN) ∧
      s.rangeStart ≤ ipN ∧ ipN ≤ s.rangeEnd ∧
      ipN ∉ s.offered.map (fun p => p.2.ip) := by
  have hgl : getLease s m tm = (s, none) := by
    unfold getLease
    rw [hleases]
    simp [lookupAssoc]
  have hused : usedIps s tm = s.offered.map (fun p => p.2.ip) := by
    unfold usedIps
    rw [hleases]
    simp only [List.map_nil, List.nil_append]
    rw [List.filter_eq_self.mpr]
    intro e he
    exact decide_eq_true (lt_of_le_of_lt htm (hunexp e he))
  have hcover : ¬ ∀ x ∈ List.range' s.rangeStart (s.rangeEnd + 1 - s.rangeStart),
      x ∈ s.offered.map (fun p => p.2.ip) := by
    intro hall
    have hsub : (List.range' s.rangeStart (s.rangeEnd + 1 - s.rangeStart)).toFinset ⊆
        (s.offered.map (fun p => p.2.ip)).toFinset := by
      intro x hx
      rw [List.mem_toFinset] at hx ⊢
      exact hall x hx
    have hcards := Finset.card_le_card hsub
    rw [List.toFinset_card_of_nodup (List.nodup_range' _ _),
      List.toFinset_card_of_nodup hips, List.length_range', List.length_map] at hcards
    omega
  rcases hex : (List.range' s.rangeStart (s.rangeEnd + 1 - s.rangeStart)).find?
      (fun ip => !((usedIps s tm).contains ip)) with _ | ipN
  · exfalso
    apply hcover
    intro x hx
    have := List.find?_eq_none.mp hex x hx
    simp only [Bool.not_eq_true', Bool.not_eq_false] at this
    rw [hused] at this
    simpa [List.contains, List.elem_iff] using this
  · have hmemR := List.mem_of_find?_eq_some hex
    rw [List.mem_range'_1] at hmemR
    have hpred := List.find?_some hex
    simp only [Bool.not_eq_true'] at hpred
    have hnotmem : ipN ∉ s.offered.map (fun p => p.2.ip) := by
      rw [hused] at hpred
      simpa [List.contains, List.elem_iff] using hpred
    refine ⟨ipN, ?_, ?_, ?_, hnotmem⟩
    · simp only [offerIp, hgl]
      rw [hex]
      show ({ s with offered := updateAssoc s.offered m ⟨ipN, tm + 60⟩ }, some ipN) =
        ({ s with offered := s.offered ++ [(m, ⟨ipN, tm + 60⟩)] }, some ipN)
      rw [updateAssoc_of_fresh _ _ _ hfresh]
    · exact hmemR.1
    · omega

/-- Invariant of a run of fresh offers over a lease-free pool: each call
succeeds and appends one offer entry; the offered addresses stay pairwise
distinct and inside the range. -/
theorem runOffers_spec (ps : List (String × Int)) : ∀ (s : LeaseState) (t : Int),
    s.leases = [] →
    (s.offered.map Prod.fst ++ ps.map Prod.fst).Nodup →
    (∀ e ∈ s.offered, t < e.2.expiry) →
    (∀ e ∈ s.offered, s.rangeStart ≤ e.2.ip ∧ e.2.ip ≤ s.rangeEnd) →
    (s.offered.map (fun p => p.2.ip)).Nodup →
    (∀ p ∈ ps, p.2 ≤ t ∧ t < p.2 + 60) →
    s.offered.length + ps.length ≤ s.rangeEnd + 1 - s.rangeStart →
    (runOffers s ps).leases = [] ∧
    (runOffers s ps).rangeStart = s.rangeStart ∧
    (runOffers s ps).rangeEnd = s.rangeEnd ∧
    (∀ e ∈ (runOffers s ps).offered, t < e.2.expiry) ∧
    (∀ e ∈ (runOffers s ps).offered,
      s.rangeStart ≤ e.2.ip ∧ e.2.ip ≤ s.rangeEnd) ∧
    ((runOffers s ps).offered.map (fun p => p.2.ip)).Nodup ∧
    (runOffers s ps).offered.length = s.offered.length + ps.length := by
  induction ps with
  | nil =>
    intro s t h1 h2 h3 h4 h5 h6 h7
    exact ⟨h1, rfl, rfl, h3, h4, h5, rfl⟩
  | cons p ps' ih =>
    intro s t h1 h2 h3 h4 h5 h6 h7
    obtain ⟨m, tm⟩ := p
    have hfresh : m ∉ s.offered.map Prod.fst := by
      rw [List.nodup_append] at h2
      intro hmem
      exact h2.2.2 hmem (by simp)
    have htm := h6 (m, tm) (by simp)
    obtain ⟨ipN, hstep, hlo, hhi, hnew⟩ :=
      offer_step_fresh s m tm t h1 hfresh h3 h4 h5 (by simp at h7; omega) htm.1
    have hrun : runOffers s ((m, tm) :: ps') =
        runOffers ({ s with offered := s.offered ++ [(m, ⟨ipN, tm + 60⟩)] }) ps' := by
      show runOffers ((offerIp s m tm).1) ps' = _
      rw [hstep]
    rw [hrun]
    have hres := ih ({ s with offered := s.offered ++ [(m, ⟨ipN, tm + 60⟩)] }) t h1
      (by
        simp only [List.map_append, List.map_cons] at h2 ⊢
        rw [List.append_assoc]
        simpa using h2)
      (by
        intro e he
        rcases List.mem_append.mp he with hold | hnewm
        · exact h3 e hold
        · simp at hnewm
          rw [hnewm]
          exact htm.2)
      (by
        intro e he
        rcases List.mem_append.mp he with hold | hnewm
        · exact h4 e hold
        · simp at hnewm
          rw [hnewm]
          exact ⟨hlo, hhi⟩)
      (by
        simp only [List.map_append]
        rw [List.nodup_append]
        refine ⟨h5, by simp, ?_⟩
        intro a ha hb
        simp at hb
        rw [hb] at ha
        exact hnew ha)
      (fun q hq => h6 q (by simp [hq]))
      (by simp at h7 ⊢; omega)
    obtain ⟨r1, r2, r3, r4, r5, r6, r7⟩ := hres
    refine ⟨r1, r2, r3, r4, by simpa using r5, r6, ?_⟩
    rw [r7]
    simp
    omega

/-- C7: from the empty pool over the range `[lo, hi]` of size
`N = hi + 1 - lo`, after `N` offers to `N` distinct MACs at times no later
than `t`, with none of those offers expired at `t`, a further offer for a
fresh MAC at time `t` returns `None` and leaves the whole state (offers
and bindings) unchanged.  (Each of the `N` earlier offers is proved, not
assumed, to have received an address: `runOffers_spec` shows every call
succeeds and the `N` offered addresses exhaust the range.) -/
theorem pool_exhaustion (lo hi : Nat) (L : Int) (ps : List (String × Int))
    (m : String) (t : Int)
    (hN : ps.length = hi + 1 - lo)
    (hnodup : (ps.map Prod.fst).Nodup)
    (hm : m ∉ ps.map Prod.fst)
    (htimes : ∀ p ∈ ps, p.2 ≤ t ∧ t < p.2 + 60) :
    offerIp (runOffers (initState lo hi L) ps) m t =
      (runOffers (initState lo hi L) ps, none) := by
  obtain ⟨hl, hrs, hre, hexp, hbounds, hips, hlen⟩ :=
    runOffers_spec ps (initState lo hi L) t rfl (by simpa [initState] using hnodup)
      (by simp [initState]) (by simp [initState]) (by simp [initState]) htimes
      (by simp [initState]; omega)
  have hgl : getLease (runOffers (initState lo hi L) ps) m t =
      (runOffers (initState lo hi L) ps, none) := by
    unfold getLease
    rw [hl]
    simp [lookupAssoc]
  have hused : usedIps (runOffers (initState lo hi L) ps) t =
      (runOffers (initState lo hi L) ps).offered.map (fun p => p.2.ip) := by
    unfold usedIps
    rw [hl]
    simp only [List.map_nil, List.nil_append]
    rw [List.filter_eq_self.mpr]
    intro e he
    exact decide_eq_true (hexp e he)
  have hcover : ∀ x ∈ List.range' (runOffers (initState lo hi L) ps).rangeStart
      ((runOffers (initState lo hi L) ps).rangeEnd + 1 -
        (runOffers (initState lo hi L) ps).rangeStart),
      x ∈ (runOffers (initState lo hi L) ps).offered.map (fun p => p.2.ip) := by
    rw [hrs, hre]
    intro x hx
    have hsub : ((runOffers (initState lo hi L) ps).offered.map
        (fun p => p.2.ip)).toFinset ⊆
        (List.range' (initState lo hi L).rangeStart
          ((initState lo hi L).rangeEnd + 1 - (initState lo hi L).rangeStart)).toFinset := by
      intro y hy
      rw [List.mem_toFinset] at hy ⊢
      obtain ⟨p, hp, hpy⟩ := List.mem_map.mp hy
      obtain ⟨hb1, hb2⟩ := hbounds p hp
      rw [List.mem_range'_1]
      simp only [initState] at hb1 hb2 ⊢
      omega
    have hcards : (List.range' (initState lo hi L).rangeStart
        ((initState lo hi L).rangeEnd + 1 - (initState lo hi L).rangeStart)).toFinset.card ≤
        ((runOffers (initState lo hi L) ps).offered.map
          (fun p => p.2.ip)).toFinset.card := by
      rw [List.toFinset_card_of_nodup (List.nodup_range' _ _),
        List.toFinset_card_of_nodup hips, List.length_range', List.length_map, hlen]
      simp only [initState]
      simp
      omega
    have heqF := Finset.eq_of_subset_of_card_le hsub hcards
    have hxF : x ∈ (List.range' (initState lo hi L).rangeStart
        ((initState lo hi L).rangeEnd + 1 - (initState lo hi L).rangeStart)).toFinset := by
      rw [List.mem_toFinset]
      simpa [initState] using hx
    rw [← heqF, List.mem_toFinset] at hxF
    exact hxF
  have hfind : (List.range' (runOffers (initState lo hi L) ps).rangeStart
      ((runOffers (initState lo hi L) ps).rangeEnd + 1 -
        (runOffers (initState lo hi L) ps).rangeStart)).find?
      (fun ip => !((usedIps (runOffers (initState lo hi L) ps) t).contains ip)) = none := by
    rw [List.find?_eq_none]
    intro x hx
    simp only [Bool.not_eq_true', Bool.not_eq_false]
    rw [hused]
    simp only [List.contains, List.elem_iff]
    exact hcover x hx
  simp only [offerIp, hgl]
  rw [hfind]

/-- Witness for C7: range `[10, 11]` (two addresses), two distinct MACs
offered at time `0`, then a third MAC's offer at time `0` returns `None`
with the state unchanged. -/
theorem pool_exhaustion_witness :
    ([("m1", (0 : Int)), ("m2", 0)].map Prod.fst).Nodup ∧
    ([("m1", (0 : Int)), ("m2", 0)].length = 11 + 1 - 10) ∧
    "m3" ∉ [("m1", (0 : Int)), ("m2", 0)].map Prod.fst ∧
    (∀ p ∈ [("m1", (0 : Int)), ("m2", 0)], p.2 ≤ 0 ∧ (0 : Int) < p.2 + 60) ∧
    offerIp (runOffers (initState 10 11 3600) [("m1", 0), ("m2", 0)]) "m3" 0 =
      (runOffers (initState 10 11 3600) [("m1", 0), ("m2", 0)], none) :=
  ⟨by decide, by decide, by decide, by decide,
    pool_exhaustion 10 11 3600 [("m1", 0), ("m2", 0)] "m3" 0 (by decide) (by decide)
      (by decide) (by decide)⟩
